import Mathlib

/-!
Verification of the `std-logger` logfmt parser (`parser/src/lib.rs`) and, for
the round-trip property, the companion logfmt writer (`src/format/logfmt.rs`,
`src/format/mod.rs`, `src/timestamp.rs`).

The embedding works on byte lists (`List Nat`, each element a byte value).
Rust byte slices become `List Nat`; functions returning subslices return the
corresponding lists.  Rust code that can panic (slice indexing with an invalid
range, overflowing `SystemTime` arithmetic) is embedded in the `POut` outcome
type, whose `panic` constructor marks a Rust panic.  Machine integers are
modelled as `Nat`/`Int` with explicit range checks and two's-complement casts
where the source performs them.
-/

set_option maxHeartbeats 1000000

/-- Outcome of running a piece of Rust code that may panic: either a value or
a panic (out-of-bounds slice index, overflow in checked `std` arithmetic). -/
inductive POut (α : Type) where
  | panic : POut α
  | ok : α → POut α
deriving DecidableEq, Repr

/-- Log levels, mirroring `log::Level` (variants `Trace`..`Error`). -/
inductive Level where
  | Trace | Debug | Info | Warn | Error
deriving DecidableEq, Repr

/-- Parsed value of a generic key-value pair, mirroring `Value` in
`parser/src/lib.rs`.  `float` keeps the accepted `f64` literal's bytes: no
theorem in this file depends on floating-point evaluation, only on which
strings Rust's `f64::from_str` accepts. -/
inductive Value where
  | bool : Bool → Value
  | int : Int → Value
  | float : List Nat → Value
  | string : List Nat → Value
deriving DecidableEq, Repr

/-- Error detail, mirroring `ParseErrorKind`.  `IoError` carries the raw OS
error code that an `io::Error` would wrap. -/
inductive ParseErrorKind where
  | KeyInvalidUt8
  | InvalidTimestamp
  | InvalidLevel
  | InvalidFile
  | InvalidValue
  | IoError : Nat → ParseErrorKind
deriving DecidableEq, Repr

/-- Error returned by the parser, mirroring `ParseError`: the offending raw
line (`none` for I/O errors) plus the error detail. -/
structure ParseError where
  line : Option (List Nat)
  kind : ParseErrorKind
deriving DecidableEq, Repr

/-- A parsed log record, mirroring `Record`.  Strings are kept as their
(UTF-8 validated) byte lists; `timestamp` is the `SystemTime` measured in
nanoseconds since the Unix epoch; `key_values` models the `HashMap` as an
insertion-ordered association list with overwriting insert. -/
structure Record where
  timestamp : Option Nat
  level : Level
  msg : List Nat
  target : List Nat
  module : Option (List Nat)
  file : Option (List Nat × Nat)
  key_values : List (List Nat × Value)
deriving DecidableEq, Repr

/-- Mirror of `Record::empty`. -/
def Record.empty : Record :=
  { timestamp := none, level := .Info, msg := [], target := [], module := none,
    file := none, key_values := [] }

/-- Insert with overwrite, the behaviour of `HashMap::insert` on the models'
association lists (the later occurrence of a key replaces the earlier one). -/
def kvInsert : List (List Nat × Value) → List Nat → Value → List (List Nat × Value)
  | [], k, v => [(k, v)]
  | (k', v') :: rest, k, v =>
      if k' = k then (k, v) :: rest else (k', v') :: kvInsert rest k v

/-- Continuation byte check for UTF-8 (`0x80..=0xBF`). -/
def utf8Cont (b : Nat) : Bool := 128 ≤ b && b ≤ 191

/-- Byte at index `i` lies in `lo..=hi` (false when absent). -/
def byteIn (l : List Nat) (i lo hi : Nat) : Bool :=
  match l.get? i with
  | some c => lo ≤ c && c ≤ hi
  | none => false

/-- Fuelled UTF-8 validation loop (RFC 3629: shortest forms only, no
surrogates, maximum `U+10FFFF`), the check performed by Rust's
`str::from_utf8`.  Each step consumes one encoded scalar; the fuel always
exceeds the list length. -/
def utf8ValidF : Nat → List Nat → Bool
  | 0, l => l.isEmpty
  | _ + 1, [] => true
  | fuel + 1, b :: rest =>
      if b < 128 then utf8ValidF fuel rest
      else if 194 ≤ b && b ≤ 223 then
        byteIn rest 0 128 191 && utf8ValidF fuel (rest.drop 1)
      else if b = 224 then
        byteIn rest 0 160 191 && byteIn rest 1 128 191 && utf8ValidF fuel (rest.drop 2)
      else if (225 ≤ b && b ≤ 236) || b = 238 || b = 239 then
        byteIn rest 0 128 191 && byteIn rest 1 128 191 && utf8ValidF fuel (rest.drop 2)
      else if b = 237 then
        byteIn rest 0 128 159 && byteIn rest 1 128 191 && utf8ValidF fuel (rest.drop 2)
      else if b = 240 then
        byteIn rest 0 144 191 && byteIn rest 1 128 191 && byteIn rest 2 128 191 &&
          utf8ValidF fuel (rest.drop 3)
      else if 241 ≤ b && b ≤ 243 then
        byteIn rest 0 128 191 && byteIn rest 1 128 191 && byteIn rest 2 128 191 &&
          utf8ValidF fuel (rest.drop 3)
      else if b = 244 then
        byteIn rest 0 128 143 && byteIn rest 1 128 191 && byteIn rest 2 128 191 &&
          utf8ValidF fuel (rest.drop 3)
      else false

/-- UTF-8 validity of a byte list (`str::from_utf8` succeeding). -/
def utf8Valid (l : List Nat) : Bool := utf8ValidF (l.length + 1) l

/-- Decimal digit run to a number: `some` the value of the digits when the
list is a non-empty run of ASCII digits, `none` otherwise.  This is the digit
phase shared by Rust's integer `FromStr` implementations. -/
def digitsVal : List Nat → Option Nat
  | [] => none
  | [b] => if 48 ≤ b ∧ b ≤ 57 then some (b - 48) else none
  | b :: rest =>
      if 48 ≤ b ∧ b ≤ 57 then
        match digitsVal rest with
        | some n => some ((b - 48) * 10 ^ rest.length + n)
        | none => none
      else none

/-- Rust `i32::from_str`: optional `+`/`-` sign, then a non-empty digit run,
rejected on overflow of the `i32` range. -/
def parseI32 (s : List Nat) : Option Int :=
  match s with
  | 43 :: rest => (digitsVal rest).bind fun n =>
      if n ≤ 2147483647 then some (n : Int) else none
  | 45 :: rest => (digitsVal rest).bind fun n =>
      if n ≤ 2147483648 then some (-(n : Int)) else none
  | _ => (digitsVal s).bind fun n =>
      if n ≤ 2147483647 then some (n : Int) else none

/-- Rust `u32::from_str`: optional `+` sign, non-empty digit run, `u32` range. -/
def parseU32 (s : List Nat) : Option Nat :=
  match s with
  | 43 :: rest => (digitsVal rest).bind fun n =>
      if n ≤ 4294967295 then some n else none
  | _ => (digitsVal s).bind fun n =>
      if n ≤ 4294967295 then some n else none

/-- Rust `i64::from_str`. -/
def parseI64 (s : List Nat) : Option Int :=
  match s with
  | 43 :: rest => (digitsVal rest).bind fun n =>
      if n ≤ 9223372036854775807 then some (n : Int) else none
  | 45 :: rest => (digitsVal rest).bind fun n =>
      if n ≤ 9223372036854775808 then some (-(n : Int)) else none
  | _ => (digitsVal s).bind fun n =>
      if n ≤ 9223372036854775807 then some (n : Int) else none

/-- ASCII lower-casing of one byte, as in `u8::to_ascii_lowercase`. -/
def asciiLower (b : Nat) : Nat := if 65 ≤ b ∧ b ≤ 90 then b + 32 else b

/-- Mirror of `str::eq_ignore_ascii_case` on byte lists. -/
def eqIgnoreAsciiCase (a b : List Nat) : Bool :=
  a.map asciiLower == b.map asciiLower

/-- Byte is an ASCII digit. -/
def isDigit (b : Nat) : Bool := 48 ≤ b && b ≤ 57

/-- Mantissa grammar of Rust's `f64::from_str`:
`Digit+ | Digit+ '.' Digit* | Digit* '.' Digit+`. -/
def f64Mantissa (s : List Nat) : Bool :=
  match s.splitOn 46 with
  | [ds] => ds ≠ [] && ds.all isDigit
  | [l, r] => (l ≠ [] || r ≠ []) && l.all isDigit && r.all isDigit
  | _ => false

/-- Exponent grammar of Rust's `f64::from_str`: `('e'|'E') Sign? Digit+`,
given here the part after the `e`/`E`. -/
def f64Exp (s : List Nat) : Bool :=
  match s with
  | 43 :: rest => rest ≠ [] && rest.all isDigit
  | 45 :: rest => rest ≠ [] && rest.all isDigit
  | _ => s ≠ [] && s.all isDigit

/-- Number part of the `f64::from_str` grammar: mantissa with optional
exponent (split at the first `e`/`E`). -/
def f64Number (s : List Nat) : Bool :=
  let mantissa := s.takeWhile (fun b => b ≠ 101 ∧ b ≠ 69)
  let rest := s.drop mantissa.length
  match rest with
  | [] => f64Mantissa mantissa
  | _ :: expPart => f64Mantissa mantissa && f64Exp expPart
  -- `rest` starts with the first `e`/`E` when non-empty.

/-- Full grammar accepted by Rust's `f64::from_str` (which can never fail on
these strings): optional sign, then `inf`/`infinity`/`nan` (ASCII
case-insensitive) or a number. -/
def isF64Lit (s : List Nat) : Bool :=
  let body := match s with
    | 43 :: rest => rest
    | 45 :: rest => rest
    | _ => s
  eqIgnoreAsciiCase body [105, 110, 102] ||
  eqIgnoreAsciiCase body [105, 110, 102, 105, 110, 105, 116, 121] ||
  eqIgnoreAsciiCase body [110, 97, 110] ||
  f64Number body

/-- Mirror of `<Value as FromStr>::from_str`: best-effort trial parse in the
order bool, `i64`, `f64`, fall back to string; it never fails. -/
def valueFromStr (s : List Nat) : Value :=
  if s = [116, 114, 117, 101] then .bool true
  else if s = [102, 97, 108, 115, 101] then .bool false
  else match parseI64 s with
    | some i => .int i
    | none => if isF64Lit s then .float s else .string s

/-- Byte is a space or tab, the predicate used by `eat_space`. -/
def isSpaceTab (b : Nat) : Bool := b = 32 || b = 9

/-- Mirror of `eat_space`: removes spaces and tabs from the start (never
newlines). -/
def eat_space (input : List Nat) : List Nat := input.dropWhile isSpaceTab

/-- Number of leading space/tab bytes, i.e. how far `eat_space` advances. -/
def countSpace (input : List Nat) : Nat := (input.takeWhile isSpaceTab).length

/-- Mirror of `eat_space_end`: removes spaces and tabs from the end. -/
def eat_space_end (input : List Nat) : List Nat :=
  (input.reverse.dropWhile isSpaceTab).reverse

/-- Mirror of `eat_space_both`. -/
def eat_space_both (input : List Nat) : List Nat := eat_space (eat_space_end input)

/-- Loop of `single_line`: copy bytes, counting `"` (byte 34), and stop at the
first newline (byte 10) seen while the quote count is even. -/
def singleLineAux : List Nat → Nat → List Nat
  | [], _ => []
  | b :: rest, qc =>
      if b = 34 then b :: singleLineAux rest (qc + 1)
      else if b = 10 && qc % 2 = 0 then []
      else b :: singleLineAux rest qc

/-- Mirror of `single_line`: the prefix of `input` up to (excluding) the first
newline that lies outside quotes, judged by quote-count parity. -/
def single_line (input : List Nat) : List Nat := singleLineAux input 0

/-- Mirror of the key scan in `parse_key`: number of bytes before the first
`=` (byte 61), or the whole length if there is none. -/
def countUntilEq (input : List Nat) : Nat := (input.takeWhile (fun b => b ≠ 61)).length

/-- Mirror of `parse_key`.  Splits at the first `=`, trims the key, strips one
matching pair of surrounding quotes and re-trims, then validates UTF-8.
When the trimmed key is a single `"` the source evaluates `&key_bytes[1..0]`,
which panics (slice start beyond end); this is the `panic` outcome. -/
def parse_key (input : List Nat) : POut (Except ParseErrorKind (List Nat × List Nat)) :=
  let i := countUntilEq input
  let keyBytes := input.take i
  let rest0 := input.drop i
  let rest := if rest0 = [] then rest0 else rest0.drop 1
  let kb := eat_space_both keyBytes
  if kb.head? = some 34 ∧ kb.getLast? = some 34 then
    if kb.length < 2 then .panic
    else
      let kb' := eat_space_both ((kb.drop 1).dropLast)
      if utf8Valid kb' then .ok (.ok (rest, kb')) else .ok (.error .KeyInvalidUt8)
  else if utf8Valid kb then .ok (.ok (rest, kb)) else .ok (.error .KeyInvalidUt8)

/-- Mirror of `parse_naked_value`: the value ends at the first space or
newline (the rest, from that byte on, is the remaining input). -/
def parse_naked_value (input : List Nat) : List Nat × List Nat :=
  let i := (input.takeWhile (fun b => b ≠ 32 ∧ b ≠ 10)).length
  (input.drop i, input.take i)

/-- Scan loop of `parse_quoted_value`: number of bytes consumed (starting
after the opening quote, with running quote count `qc`) before the first `=`
encountered while the quote count is even. -/
def scanEq : List Nat → Nat → Nat
  | [], _ => 0
  | b :: rest, qc =>
      if b = 34 then 1 + scanEq rest (qc + 1)
      else if b = 61 && qc % 2 = 0 then 0
      else 1 + scanEq rest qc

/-- Mirror of `parse_quoted_value` (callers guarantee `input` starts with a
`"`).  Scans to the first `=` at even quote parity, then backs up to the last
preceding `"`; the value is everything strictly between the opening quote and
that quote, and the remaining input restarts just after it. -/
def parse_quoted_value (input : List Nat) : List Nat × List Nat :=
  let n := scanEq (input.drop 1) 1
  let inputValue := (input.drop 1).take n
  let value := ((inputValue.reverse.dropWhile (fun b => b ≠ 34)).drop 1).reverse
  let i := 1 + value.length
  let rest := if i = input.length then [] else input.drop (i + 1)
  (rest, value)

/-- Mirror of `parse_value`. -/
def parse_value (input : List Nat) : List Nat × List Nat :=
  let input := eat_space input
  if input.head? = some 34 then parse_quoted_value input else parse_naked_value input

/-- Days from the civil date `(y, m, d)` (month `1..12`, proleptic Gregorian)
to 1970-01-01, the standard calendar arithmetic underlying the libc
`timegm`/`gmtime` pair. -/
def daysFromCivil (y m d : Int) : Int :=
  let y' := if m ≤ 2 then y - 1 else y
  let era := y'.fdiv 400
  let yoe := y' - era * 400
  let mp := if m > 2 then m - 3 else m + 9
  let doy := (153 * mp + 2) / 5 + d - 1
  let doe := yoe * 365 + yoe / 4 - yoe / 100 + doy
  era * 146097 + doe - 719468

/-- Modelled from the spec: the external collaborator `libc::timegm`, which
`parse_timestamp` calls.  It converts broken-down UTC time (`tm` fields,
possibly denormalized) to seconds since the Unix epoch by pure proleptic
Gregorian calendar arithmetic; out-of-range months are folded into the year,
and day/hour/minute/second contributions are linear. -/
def timegm (tm_sec tm_min tm_hour tm_mday tm_mon tm_year : Int) : Int :=
  let y := 1900 + tm_year + tm_mon.fdiv 12
  let m := tm_mon - 12 * (tm_mon.fdiv 12)
  let days := daysFromCivil y (m + 1) 1 + (tm_mday - 1)
  ((days * 24 + tm_hour) * 60 + tm_min) * 60 + tm_sec

/-- Two's-complement reinterpretation of an `i64` value as a `u64`, the
`time_offset as u64` cast in `parse_timestamp`. -/
def u64OfInt (t : Int) : Nat := (t % 18446744073709551616).toNat

/-- Separator/length check of `parse_timestamp`: exactly 27 bytes with `-`,
`-`, `T`, `:`, `:`, `.`, `Z` at offsets 4, 7, 10, 13, 16, 19, 26. -/
def tsLayout (value : List Nat) : Prop :=
  value.length = 27 ∧ value.get? 4 = some 45 ∧ value.get? 7 = some 45 ∧
  value.get? 10 = some 84 ∧ value.get? 13 = some 58 ∧ value.get? 16 = some 58 ∧
  value.get? 19 = some 46 ∧ value.get? 26 = some 90

instance (value : List Nat) : Decidable (tsLayout value) := by
  unfold tsLayout; infer_instance

/-- Numeric subfields of a 27-byte timestamp value, in source order: year,
month, day, hour, minute, second as `i32`, the 6 fraction digits as `u32`.
`none` when any subfield fails its integer parse. -/
def tsFields (value : List Nat) : Option (Int × Int × Int × Int × Int × Int × Nat) := do
  let year ← parseI32 ((value.drop 0).take 4)
  let month ← parseI32 ((value.drop 5).take 2)
  let day ← parseI32 ((value.drop 8).take 2)
  let hour ← parseI32 ((value.drop 11).take 2)
  let min ← parseI32 ((value.drop 14).take 2)
  let sec ← parseI32 ((value.drop 17).take 2)
  let nanos ← parseU32 ((value.drop 20).take 6)
  pure (year, month, day, hour, min, sec, nanos)

/-- Epoch seconds (before the `as u64` cast) that `parse_timestamp` computes
for a value whose subfields parse: `timegm` of the `tm` built from them. -/
def tsSecs (value : List Nat) : Int :=
  match tsFields value with
  | some (year, month, day, hour, min, sec, _) =>
      timegm sec min hour day (month - 1) (year - 1900)
  | none => 0

/-- Fraction field (the 6 digits after the `.`), as `parse_timestamp` feeds
it to `Duration::new` — as a nanosecond count. -/
def tsFrac (value : List Nat) : Nat :=
  match tsFields value with
  | some (_, _, _, _, _, _, nanos) => nanos
  | none => 0

/-- Mirror of `parse_timestamp`.  After the layout, UTF-8 and subfield
checks, the source computes `SystemTime::UNIX_EPOCH + Duration::new
(timegm(tm) as u64, nanos)`; the `+` is `checked_add` + `expect`, which
panics when the (wrapped) second count exceeds `i64::MAX`, the maximum
`tv_sec`.  The success value is the time in nanoseconds since the epoch. -/
def parse_timestamp (value : List Nat) : POut (Except ParseErrorKind Nat) :=
  if tsLayout value then
    if utf8Valid value then
      match tsFields value with
      | some (year, month, day, hour, min, sec, nanos) =>
          let secs := u64OfInt (timegm sec min hour day (month - 1) (year - 1900))
          if secs < 9223372036854775808 then .ok (.ok (secs * 1000000000 + nanos))
          else .panic
      | none => .ok (.error .InvalidTimestamp)
    else .ok (.error .InvalidTimestamp)
  else .ok (.error .InvalidTimestamp)

/-- Modelled from the repository's test suite: `log::Level::from_str` (from
the external `log` crate), which `parse_log_level` calls.  It matches the
level names ASCII case-insensitively (`OFF` is index 0 of the name table and
filtered out); the in-repo test parses `warn`, `TraCE` and `DEBUG`
successfully, fixing this behaviour. -/
def levelFromStr (s : List Nat) : Option Level :=
  if eqIgnoreAsciiCase s [79, 70, 70] then none
  else if eqIgnoreAsciiCase s [69, 82, 82, 79, 82] then some .Error
  else if eqIgnoreAsciiCase s [87, 65, 82, 78] then some .Warn
  else if eqIgnoreAsciiCase s [73, 78, 70, 79] then some .Info
  else if eqIgnoreAsciiCase s [68, 69, 66, 85, 71] then some .Debug
  else if eqIgnoreAsciiCase s [84, 82, 65, 67, 69] then some .Trace
  else none

/-- Mirror of `parse_log_level`: UTF-8 validation, then `Level::from_str`. -/
def parse_log_level (value : List Nat) : Except ParseErrorKind Level :=
  if utf8Valid value then
    match levelFromStr value with
    | some level => .ok level
    | none => .error .InvalidLevel
  else .error .InvalidLevel

/-- Mirror of `parse_string`: UTF-8 validation only. -/
def parse_string (value : List Nat) : Except ParseErrorKind (List Nat) :=
  if utf8Valid value then .ok value else .error .InvalidValue

/-- Mirror of `parse_file`: UTF-8 validation, split on the last `:` (byte
58), parse the right part as a `u32` line number. -/
def parse_file (value : List Nat) : Except ParseErrorKind (List Nat × Nat) :=
  if utf8Valid value then
    let revIdx := (value.reverse.takeWhile (fun b => b ≠ 58)).length
    if revIdx = value.length then .error .InvalidFile
    else
      let file := value.take (value.length - revIdx - 1)
      let column := value.drop (value.length - revIdx)
      match parseU32 column with
      | some column => .ok (file, column)
      | none => .error .InvalidFile
  else .error .InvalidFile

/-- Key-name byte constants: `ts`, `lvl`, `msg`, `target`, `module`, `file`. -/
def tsKeyName : List Nat := [116, 115]

/-- Byte constant for the key `lvl`. -/
def lvlKeyName : List Nat := [108, 118, 108]

/-- Byte constant for the key `msg`. -/
def msgKeyName : List Nat := [109, 115, 103]

/-- Byte constant for the key `target`. -/
def targetKeyName : List Nat := [116, 97, 114, 103, 101, 116]

/-- Byte constant for the key `module`. -/
def moduleKeyName : List Nat := [109, 111, 100, 117, 108, 101]

/-- Byte constant for the key `file`. -/
def fileKeyName : List Nat := [102, 105, 108, 101]

/-- Dispatch of one scanned key/value pair, the `match key` block of
`Parser::parse_line`: recognized keys go to their typed field, any other key
is interpreted best-effort and inserted into `key_values`. -/
def interpret (key value : List Nat) (rec : Record) : POut (Except ParseErrorKind Record) :=
  if key = tsKeyName then
    match parse_timestamp value with
    | .panic => .panic
    | .ok (.error k) => .ok (.error k)
    | .ok (.ok t) => .ok (.ok { rec with timestamp := some t })
  else if key = lvlKeyName then
    match parse_log_level value with
    | .error k => .ok (.error k)
    | .ok level => .ok (.ok { rec with level := level })
  else if key = msgKeyName then
    match parse_string value with
    | .error k => .ok (.error k)
    | .ok msg => .ok (.ok { rec with msg := msg })
  else if key = targetKeyName then
    match parse_string value with
    | .error k => .ok (.error k)
    | .ok target => .ok (.ok { rec with target := target })
  else if key = moduleKeyName then
    match parse_string value with
    | .error k => .ok (.error k)
    | .ok module => .ok (.ok { rec with module := if module = [] then rec.module else some module })
  else if key = fileKeyName then
    match parse_file value with
    | .error k => .ok (.error k)
    | .ok fl => .ok (.ok { rec with file := some fl })
  else
    match parse_string value with
    | .error k => .ok (.error k)
    | .ok v => .ok (.ok { rec with key_values := kvInsert rec.key_values key (valueFromStr v) })

/-- One read event delivered by the modelled `io::Read` source: a chunk of
bytes, or an I/O error carrying its OS error code. -/
inductive ReadEvent where
  | chunk : List Nat → ReadEvent
  | ioErr : Nat → ReadEvent
deriving DecidableEq, Repr

/-- A modelled reader: the queue of pending read events.  An exhausted queue
keeps returning 0-byte reads (EOF), per the `io::Read` contract. -/
abbrev Reader : Type := List ReadEvent

/-- One `read` call with `space` bytes available: pops the next event,
splitting a chunk that is larger than the free buffer space (a reader may
return at most `space` bytes). -/
def readerRead : Reader → Nat → Except Nat (List Nat) × Reader
  | [], _ => (.ok [], [])
  | .ioErr e :: r, _ => (.error e, r)
  | .chunk c :: r, space =>
      if c.length ≤ space then (.ok c, r)
      else (.ok (c.take space), .chunk (c.drop space) :: r)

/-- State of `Parser<R>`: the reader, the `parsed` cursor, the buffer, its
capacity, and the `needs_read`/`hit_eof` flags. -/
structure PState where
  reader : Reader
  parsed : Nat
  buf : List Nat
  cap : Nat
  needsRead : Bool
  hitEof : Bool
deriving DecidableEq, Repr

/-- Mirror of `parse(reader)`: fresh parser state (4096-byte capacity). -/
def initState (r : Reader) : PState :=
  { reader := r, parsed := 0, buf := [], cap := 4096, needsRead := true, hitEof := false }

/-- Mirror of `Parser::fill_buf`: strip leading spaces (by advancing
`parsed`), drain the consumed prefix, double the capacity when the buffer is
full, read once into the free tail.  On success the bytes are appended and a
0-byte read sets `hit_eof`; on error the buffer is truncated back, and the
error code is returned alongside the (still mutated) state. -/
def fill_buf (s : PState) : PState × Option Nat :=
  let parsed1 := s.parsed + countSpace (s.buf.drop s.parsed)
  let buf1 := s.buf.drop parsed1
  let cap1 := if buf1.length = s.cap then 2 * s.cap else s.cap
  match readerRead s.reader (cap1 - buf1.length) with
  | (.ok chunk, r') =>
      let eof := if chunk.length = 0 then true else s.hitEof
      ({ s with reader := r', parsed := 0, buf := buf1 ++ chunk,
                cap := cap1, hitEof := eof },
       none)
  | (.error e, r') =>
      ({ s with reader := r', parsed := 0, buf := buf1, cap := cap1 }, some e)

/-- Loop body of `Parser::parse_line`, fuelled for kernel computability (the
fuel strictly exceeds the input length at every call, and every iteration
consumes at least the scanned `=`).  `total` is the buffer length, `win0` the
window at entry (used by `create_line_error`), `base` the `parsed` value
after the entry `remove_spaces`.  Returns the updated `parsed` cursor and
the line result: a record, `none` for incomplete/blank, or an error already
carrying its captured line. -/
def lineLoop : Nat → Bool → Nat → List Nat → Nat → List Nat → Record → Bool →
    POut (Nat × Except ParseError (Option Record))
  | 0, _, _, _, base, _, _, _ => .ok (base, .ok none)
  | fuel + 1, hitEof, total, win0, base, input0, rec, recIsEmpty =>
    let input := eat_space input0
    if input = [] ∨ input.head? = some 10 then
      .ok (total - input.length + (if input = [] then 0 else 1),
           .ok (if recIsEmpty then none else some rec))
    else
      match parse_key input with
      | .panic => .panic
      | .ok (.error k) => .ok (base, .error { line := some (single_line win0), kind := k })
      | .ok (.ok (rest, key)) =>
        if rest = [] then .ok (base, .ok none)
        else
          let vp := parse_value rest
          if vp.1 = [] ∧ hitEof = false then .ok (base, .ok none)
          else
            match interpret key vp.2 rec with
            | .panic => .panic
            | .ok (.error k) =>
                .ok (base, .error { line := some (single_line win0), kind := k })
            | .ok (.ok rec') => lineLoop fuel hitEof total win0 base vp.1 rec' false

/-- Mirror of `Parser::parse_line`: strip leading spaces (mutating `parsed`),
then run the key/value loop over the remaining window. -/
def parse_line (s : PState) : POut (Nat × Except ParseError (Option Record)) :=
  let parsed1 := s.parsed + countSpace (s.buf.drop s.parsed)
  let win0 := s.buf.drop parsed1
  lineLoop (win0.length + 1) s.hitEof s.buf.length win0 parsed1 win0 Record.empty true

deriving instance DecidableEq for Except

/-- Result of one fuelled `Iterator::next` call on the parser: a Rust panic,
fuel exhaustion (the source would keep looping/reading), or a yielded item
(`none` = iterator end) together with the successor state. -/
inductive DriverOut where
  | panic : DriverOut
  | diverge : DriverOut
  | yield : Option (Except ParseError Record) → PState → DriverOut
deriving DecidableEq, Repr

/-- Mirror of `<Parser as Iterator>::next`: refill when `needs_read` (always
set in practice), emit an `Io` error without a line on read failure, yield a
parsed record, terminate at EOF with no pending line, loop after an
incomplete line, or skip past the captured line of a malformed one (plus its
trailing newline) and emit the error. -/
def nextF : Nat → PState → DriverOut
  | 0, _ => .diverge
  | fuel + 1, s =>
    let fr := if s.needsRead then fill_buf s else (s, none)
    match fr.2 with
    | some e => .yield (some (.error { line := none, kind := .IoError e })) fr.1
    | none =>
      match parse_line fr.1 with
      | .panic => .panic
      | .ok (p, res) =>
        match res with
        | .ok (some rec) => .yield (some (.ok rec)) { fr.1 with parsed := p }
        | .ok none =>
            if fr.1.hitEof then .yield none { fr.1 with parsed := p }
            else nextF fuel { fr.1 with parsed := p, needsRead := true }
        | .error err =>
            let q := match err.line with
              | some line =>
                  p + line.length +
                    (if fr.1.buf.get? (p + line.length) = some 10 then 1 else 0)
              | none => p
            .yield (some (.error err)) { fr.1 with parsed := q }

/-- Drive the parser to completion (with fuel), collecting every yielded
item in order, as a `for` loop over the iterator would. -/
def collect : Nat → PState → List (Except ParseError Record)
  | 0, _ => []
  | fuel + 1, s =>
      match nextF (fuel + 1) s with
      | .yield (some item) s' => item :: collect fuel s'
      | _ => []

/-! The companion logfmt writer (`src/format/logfmt.rs`, `src/format/mod.rs`,
`src/timestamp.rs`), embedded for the round-trip property. -/

/-- Broken-down UTC time produced by `Timestamp::from` (`src/timestamp.rs`). -/
structure Timestamp where
  year : Nat
  month : Nat
  day : Nat
  hour : Nat
  min : Nat
  sec : Nat
  micro : Nat
deriving DecidableEq, Repr

/-- Month loop of `Timestamp::from`: walk the March-first day table,
subtracting whole months from the remaining days. -/
def tsMonthAux : List Nat → Nat → Nat → Nat × Nat
  | [], m, rem => (m, rem)
  | dim :: rest, m, rem =>
      if dim > rem then (m, rem) else tsMonthAux rest (m + 1) (rem - dim)

/-- Mirror of `Timestamp::from` (ported from musl's `__secs_to_tm` in the
source): breaks a `SystemTime` (here: nanoseconds since the Unix epoch) into
calendar fields.  The `secs_since_epoch - LEAPOCH` subtraction is `u64`
arithmetic, embedded with an explicit wrap (the source is only used for
times after 2001, where no wrap occurs). -/
def Timestamp.from (time : Nat) : Timestamp :=
  let secsSinceEpoch := time / 1000000000
  let secs := (secsSinceEpoch + 18446744073709551616 - 951868800) % 18446744073709551616
  let days := secs / 86400
  let remsecs := secs % 86400
  let qcCycles := days / 146097
  let remdays0 := days % 146097
  let cCycles0 := remdays0 / 36524
  let cCycles := if cCycles0 = 4 then cCycles0 - 1 else cCycles0
  let remdays1 := remdays0 - cCycles * 36524
  let qCycles0 := remdays1 / 1461
  let qCycles := if qCycles0 = 25 then qCycles0 - 1 else qCycles0
  let remdays2 := remdays1 - qCycles * 1461
  let remyears0 := remdays2 / 365
  let remyears := if remyears0 = 4 then remyears0 - 1 else remyears0
  let remdays3 := remdays2 - remyears * 365
  let year0 := remyears + 4 * qCycles + 100 * cCycles + 400 * qcCycles
  let mr := tsMonthAux [31, 30, 31, 30, 31, 31, 30, 31, 30, 31, 31, 29] 0 remdays3
  let month0 : Int := mr.1
  let month1 := if month0 ≥ 10 then month0 - 12 else month0
  let year1 := if month0 ≥ 10 then year0 + 1 else year0
  { year := year1 + 100 + 1900,
    month := (month1 + 2 + 1).toNat,
    day := mr.2 + 1,
    hour := remsecs / 3600,
    min := remsecs / 60 % 60,
    sec := remsecs % 60,
    micro := time % 1000000000 / 1000 }

/-- Decimal digits (ASCII) of a number, fuelled; the rendering `itoa`
performs. -/
def itoaDigitsAux : Nat → Nat → List Nat
  | 0, _ => []
  | fuel + 1, n => if n < 10 then [48 + n] else itoaDigitsAux fuel (n / 10) ++ [48 + n % 10]

/-- ASCII decimal rendering of a `Nat`, as `itoa` produces it. -/
def itoaDigits (n : Nat) : List Nat := itoaDigitsAux (n + 1) n

/-- Mirror of `zero_pad2` in `src/format/mod.rs`: left-pad a 1-digit
rendering with `0`, otherwise keep the (two) digits. -/
def zero_pad2 (n : Nat) : List Nat :=
  let v := itoaDigits n
  if v.length = 1 then 48 :: v else v.take 2

/-- Mirror of `zero_pad6`: left-pad the rendering with `0` to 6 bytes. -/
def zero_pad6 (n : Nat) : List Nat :=
  let v := itoaDigits n
  List.replicate (6 - v.length) 48 ++ v

/-- Mirror of `format_timestamp` in `src/format/mod.rs`: render the
broken-down time as `YYYY-MM-DDThh:mm:ss.SSSSSSZ` (year unpadded by `itoa`,
all other fields zero-padded). -/
def format_timestamp (t : Timestamp) : List Nat :=
  itoaDigits t.year ++ [45] ++ zero_pad2 t.month ++ [45] ++ zero_pad2 t.day ++ [84] ++
  zero_pad2 t.hour ++ [58] ++ zero_pad2 t.min ++ [58] ++ zero_pad2 t.sec ++ [46] ++
  zero_pad6 t.micro ++ [90]

/-- Byte-level rendering of `Buf::write_char` (`src/format/logfmt.rs`): the
RFC 8259 escapes for quote, backslash, line feed, carriage return and tab;
every other character is re-encoded unchanged, so on a valid UTF-8 string
the char-by-char loop acts byte by byte. -/
def escapeByte (b : Nat) : List Nat :=
  if b = 34 then [92, 34]
  else if b = 92 then [92, 92]
  else if b = 10 then [92, 110]
  else if b = 13 then [92, 114]
  else if b = 9 then [92, 116]
  else [b]

/-- Mirror of `Buf::write_str`: escape every character of the string. -/
def escapeBytes (s : List Nat) : List Nat := s.flatMap escapeByte

/-- Mirror of `log::Level::as_str`: the upper-case level name. -/
def levelAsStr : Level → List Nat
  | .Trace => [84, 82, 65, 67, 69]
  | .Debug => [68, 69, 66, 85, 71]
  | .Info => [73, 78, 70, 79]
  | .Warn => [87, 65, 82, 78]
  | .Error => [69, 82, 82, 79, 82]

/-- Mirror of `LogFmt::format` (`src/format/logfmt.rs`) with the timestamp
feature on, no key-value pairs and `add_loc = false`: the line
`ts="<timestamp>" lvl="<LEVEL>" msg="<escaped msg>" target="<target>"
module="<module>"` followed by a newline.  `msg` goes through the escaping
`Buf`; `target` and the module path are written raw. -/
def serializeLogfmt (time : Nat) (level : Level) (msg target module : List Nat) : List Nat :=
  [116, 115, 61, 34] ++ format_timestamp (Timestamp.from time) ++ [34, 32] ++
  [108, 118, 108, 61, 34] ++ levelAsStr level ++
  [34, 32, 109, 115, 103, 61, 34] ++ escapeBytes msg ++
  [34, 32, 116, 97, 114, 103, 101, 116, 61, 34] ++ target ++
  [34, 32, 109, 111, 100, 117, 108, 101, 61, 34] ++ module ++
  [34] ++ [10]

/-! Helper lemmas about the byte-scanning primitives. -/

theorem eat_space_eq_drop (l : List Nat) : eat_space l = l.drop (countSpace l) := by
  induction l with
  | nil => rfl
  | cons b tl ih =>
      by_cases hb : isSpaceTab b = true
      · simp [eat_space, countSpace, List.dropWhile_cons, List.takeWhile_cons, hb] at ih ⊢
        exact ih
      · simp only [Bool.not_eq_true] at hb
        simp [eat_space, countSpace, List.dropWhile_cons, List.takeWhile_cons, hb]

theorem eat_space_cons_of_not (b : Nat) (l : List Nat) (h : isSpaceTab b = false) :
    eat_space (b :: l) = b :: l := by
  simp [eat_space, List.dropWhile_cons, h]

theorem countSpace_cons_of_not (b : Nat) (l : List Nat) (h : isSpaceTab b = false) :
    countSpace (b :: l) = 0 := by
  simp [countSpace, List.takeWhile_cons, h]

theorem countSpace_eat_space (l : List Nat) : countSpace (eat_space l) = 0 := by
  induction l with
  | nil => rfl
  | cons b tl ih =>
      by_cases hb : isSpaceTab b = true
      · simpa [eat_space, List.dropWhile_cons, hb] using ih
      · simp only [Bool.not_eq_true] at hb
        rw [eat_space_cons_of_not b tl hb, countSpace_cons_of_not b tl hb]

theorem eat_space_idem (l : List Nat) : eat_space (eat_space l) = eat_space l := by
  rw [eat_space_eq_drop (eat_space l), countSpace_eat_space, List.drop_zero]

theorem takeWhile_append_all (p : Nat → Bool) (l₁ l₂ : List Nat)
    (h : ∀ b ∈ l₁, p b = true) :
    (l₁ ++ l₂).takeWhile p = l₁ ++ l₂.takeWhile p := by
  induction l₁ with
  | nil => simp
  | cons b tl ih =>
      have hb := h b (by simp)
      simp [List.takeWhile_cons, hb, ih fun x hx => h x (by simp [hx])]

theorem dropWhile_append_all (p : Nat → Bool) (l₁ l₂ : List Nat)
    (h : ∀ b ∈ l₁, p b = true) :
    (l₁ ++ l₂).dropWhile p = l₂.dropWhile p := by
  induction l₁ with
  | nil => simp
  | cons b tl ih =>
      have hb := h b (by simp)
      simp [List.dropWhile_cons, hb, ih fun x hx => h x (by simp [hx])]

theorem singleLineAux_append (v l : List Nat) (qc : Nat)
    (h34 : 34 ∉ v) (h10 : 10 ∉ v) :
    singleLineAux (v ++ l) qc = v ++ singleLineAux l qc := by
  induction v with
  | nil => simp
  | cons b tl ih =>
      have hb34 : b ≠ 34 := by intro hc; exact h34 (by simp [hc])
      have hb10 : b ≠ 10 := by intro hc; exact h10 (by simp [hc])
      have ih' := ih (fun hc => h34 (by simp [hc])) (fun hc => h10 (by simp [hc]))
      simp only [List.cons_append, singleLineAux, if_neg hb34, hb10, decide_False,
        Bool.false_and, Bool.false_eq_true, if_false, List.append_eq] at ih' ⊢
      rw [ih']

theorem scanEq_append (l rest : List Nat) (qc : Nat) (h : 61 ∉ l) :
    scanEq (l ++ rest) qc = l.length + scanEq rest (qc + l.count 34) := by
  induction l generalizing qc with
  | nil => simp
  | cons b tl ih =>
      have hb : b ≠ 61 := by intro hc; exact h (by simp [hc])
      have htl : 61 ∉ tl := fun hc => h (by simp [hc])
      by_cases hb34 : b = 34
      · subst hb34
        have ih' := ih (qc + 1) htl
        simp only [List.cons_append, scanEq, if_pos rfl, List.append_eq] at ih' ⊢
        rw [ih', List.count_cons]
        simp only [List.length_cons, beq_self_eq_true, if_pos, if_true, reduceIte]
        have harg : qc + (List.count 34 tl + 1) = qc + 1 + List.count 34 tl := by omega
        rw [harg]
        omega
      · have ih' := ih qc htl
        simp only [List.cons_append, scanEq, if_neg hb34, hb, decide_False, Bool.false_and,
          Bool.false_eq_true, if_false, List.append_eq] at ih' ⊢
        rw [ih', List.count_cons]
        have : (b == 34) = false := by simp [hb34]
        simp only [List.length_cons, this, Bool.false_eq_true, if_false, Nat.add_zero]
        omega

theorem scanEq_stop (r : List Nat) (qc : Nat) (h : qc % 2 = 0) :
    scanEq (61 :: r) qc = 0 := by
  simp [scanEq, h]

/-! Claim C1: the quoted-value scan. -/

/-- C1: for a window whose value starts with `"`, the quoted-value scan runs
to the first `=` seen at even quote count, backs up to the nearest preceding
`"`, and returns exactly the bytes strictly between the opening quote and
that quote; a value `v` with embedded newlines and an even number of embedded
unescaped quotes is returned whole, never truncated at a newline.  Here `w`
is the stretch (no quotes, no `=`) between the closing quote and the next
key's `=`, and `r` the input after that `=`. -/
theorem parse_quoted_value_even_quotes (v w r : List Nat)
    (hv : v.count 34 % 2 = 0) (hveq : 61 ∉ v) (hwq : 34 ∉ w) (hweq : 61 ∉ w) :
    parse_quoted_value (34 :: (v ++ 34 :: (w ++ 61 :: r))) = (w ++ 61 :: r, v) := by
  have hwc : w.count 34 = 0 := List.count_eq_zero.mpr hwq
  have hscan : scanEq (v ++ 34 :: (w ++ 61 :: r)) 1 = v.length + (1 + w.length) := by
    rw [scanEq_append v _ 1 hveq]
    have h34 : scanEq (34 :: (w ++ 61 :: r)) (1 + v.count 34) =
        1 + scanEq (w ++ 61 :: r) (1 + v.count 34 + 1) := by
      simp [scanEq]
    rw [h34, scanEq_append w _ _ hweq, hwc, scanEq_stop r _ (by omega)]
    omega
  have htake : (v ++ 34 :: (w ++ 61 :: r)).take (v.length + (1 + w.length)) =
      v ++ 34 :: w := by
    rw [List.take_append]
    congr 1
    have : 1 + w.length = w.length + 1 := by omega
    rw [this, List.take_succ_cons]
    congr 1
    exact List.take_left w (61 :: r)
  have hrev : (v ++ 34 :: w).reverse = w.reverse ++ 34 :: v.reverse := by
    simp [List.reverse_append]
  have hdrop : ((v ++ 34 :: w).reverse.dropWhile (fun b => b ≠ 34)).drop 1 = v.reverse := by
    rw [hrev, dropWhile_append_all _ w.reverse (34 :: v.reverse)
      (fun b hb => by
        have : b ∈ w := List.mem_reverse.mp hb
        simp only [decide_eq_true_eq]
        intro hc; exact hwq (hc ▸ this))]
    simp [List.dropWhile_cons]
  show parse_quoted_value (34 :: (v ++ 34 :: (w ++ 61 :: r))) = (w ++ 61 :: r, v)
  unfold parse_quoted_value
  simp only [List.drop_succ_cons, List.drop_zero, hscan, htake, hdrop, List.reverse_reverse]
  have hlen : ¬(1 + v.length = (34 :: (v ++ 34 :: (w ++ 61 :: r))).length) := by
    simp [List.length_append]
    omega
  rw [if_neg hlen]
  have hfin : (v ++ 34 :: (w ++ 61 :: r)).drop (1 + v.length) = w ++ 61 :: r := by
    rw [show v ++ 34 :: (w ++ 61 :: r) = (v ++ [34]) ++ (w ++ 61 :: r) by simp,
        show 1 + v.length = (v ++ [34]).length by simp [Nat.add_comm]]
    exact List.drop_left (v ++ [34]) (w ++ 61 :: r)
  rw [hfin]

/-- Witness for C1 at a concrete input: value `a\nb""` (a newline and two
embedded quotes), followed by `" k=v`. -/
theorem parse_quoted_value_even_quotes_witness :
    List.count 34 [97, 10, 98, 34, 34] % 2 = 0 ∧ (61 : Nat) ∉ [97, 10, 98, 34, 34] ∧
    (34 : Nat) ∉ [32, 107] ∧ (61 : Nat) ∉ [32, 107] ∧
    parse_quoted_value [34, 97, 10, 98, 34, 34, 34, 32, 107, 61, 118] =
      ([32, 107, 61, 118], [97, 10, 98, 34, 34]) :=
  ⟨by decide, by decide, by decide, by decide,
   parse_quoted_value_even_quotes [97, 10, 98, 34, 34] [32, 107] [118]
     (by decide) (by decide) (by decide) (by decide)⟩

/-! Claim C2: error emission for malformed lines. -/

/-- Every error produced by the `parse_line` loop leaves the cursor at the
entry value `base` and captures as its line the quote-parity line scan of the
entry window `win0` (the behaviour of `create_line_error`). -/
theorem lineLoop_error (fuel : Nat) (hitEof : Bool) (total : Nat) (win0 : List Nat)
    (base : Nat) :
    ∀ (input : List Nat) (rec : Record) (b : Bool) (p : Nat) (e : ParseError),
      lineLoop fuel hitEof total win0 base input rec b = .ok (p, .error e) →
      p = base ∧ ∃ k, e = { line := some (single_line win0), kind := k } := by
  induction fuel with
  | zero =>
      intro input rec b p e h
      simp [lineLoop] at h
  | succ fuel ih =>
      intro input rec b p e h
      simp only [lineLoop] at h
      split at h
      · simp at h
      · split at h
        · simp at h
        · simp only [POut.ok.injEq, Prod.mk.injEq, Except.error.injEq] at h
          exact ⟨h.1.symm, _, h.2.symm⟩
        · split at h
          · simp at h
          · split at h
            · simp at h
            · split at h
              · simp at h
              · simp only [POut.ok.injEq, Prod.mk.injEq, Except.error.injEq] at h
                exact ⟨h.1.symm, _, h.2.symm⟩
              · exact ih _ _ _ _ _ h

/-- The state `fill_buf` returns always has its cursor reset to 0. -/
theorem fill_buf_parsed (s : PState) : (fill_buf s).1.parsed = 0 := by
  simp only [fill_buf]
  split <;> rfl

/-- C2: when field interpretation fails on a line, a single `next()` call
emits exactly one `ParseError` whose `line` is the quote-parity-aware line
scan of the post-refill window, advances `parsed` past exactly that captured
span plus a trailing newline when present, and leaves the following bytes as
the next window; no record is yielded for the line. -/
theorem next_malformed_line (fuel : Nat) (s s1 : PState) (p1 : Nat) (e : ParseError)
    (hread : s.needsRead = true)
    (hfill : fill_buf s = (s1, none))
    (herr : parse_line s1 = .ok (p1, .error e)) :
    p1 = countSpace s1.buf ∧
    e.line = some (single_line (eat_space s1.buf)) ∧
    nextF (fuel + 1) s = .yield (some (.error e))
      { s1 with parsed := p1 + (single_line (eat_space s1.buf)).length +
          (if s1.buf.get? (p1 + (single_line (eat_space s1.buf)).length) = some 10
           then 1 else 0) } ∧
    s1.buf.drop (p1 + (single_line (eat_space s1.buf)).length) =
      (eat_space s1.buf).drop (single_line (eat_space s1.buf)).length := by
  have hs1 : (fill_buf s).1 = s1 := by rw [hfill]
  have hparsed0 : s1.parsed = 0 := by rw [← hs1]; exact fill_buf_parsed s
  have hwin : s1.buf.drop (s1.parsed + countSpace (s1.buf.drop s1.parsed)) =
      eat_space s1.buf := by
    rw [hparsed0, List.drop_zero, Nat.zero_add, ← eat_space_eq_drop]
  have hbase : s1.parsed + countSpace (s1.buf.drop s1.parsed) = countSpace s1.buf := by
    rw [hparsed0, List.drop_zero, Nat.zero_add]
  have hloop := herr
  simp only [parse_line] at hloop
  rw [hparsed0] at hloop
  simp only [List.drop_zero, Nat.zero_add] at hloop
  rw [← eat_space_eq_drop] at hloop
  obtain ⟨hp, k, hek⟩ := lineLoop_error _ _ _ _ _ _ _ _ _ _ hloop
  have hline : e.line = some (single_line (eat_space s1.buf)) := by rw [hek]
  refine ⟨hp, hline, ?_, ?_⟩
  · simp only [nextF, hread, if_true]
    rw [hfill]
    simp only
    rw [herr]
    simp only [hline]
  · rw [hp, eat_space_eq_drop, List.drop_drop]

/-- Witness for C2: the two-line input `lvl=BAD\nok=1\n`.  The first line
fails level interpretation; one `InvalidLevel` error carrying exactly
`lvl=BAD` is emitted and the cursor lands on `ok=1\n`. -/
theorem next_malformed_line_witness :
    0 = countSpace (PState.buf ⟨[], 0, [108, 118, 108, 61, 66, 65, 68, 10, 111, 107, 61, 49, 10], 4096, true, false⟩) ∧
    ParseError.line ⟨some [108, 118, 108, 61, 66, 65, 68], .InvalidLevel⟩ =
      some (single_line (eat_space (PState.buf ⟨[], 0, [108, 118, 108, 61, 66, 65, 68, 10, 111, 107, 61, 49, 10], 4096, true, false⟩))) ∧
    nextF (0 + 1) (initState [.chunk [108, 118, 108, 61, 66, 65, 68, 10, 111, 107, 61, 49, 10]]) =
      .yield (some (.error ⟨some [108, 118, 108, 61, 66, 65, 68], .InvalidLevel⟩))
        { (⟨[], 0, [108, 118, 108, 61, 66, 65, 68, 10, 111, 107, 61, 49, 10], 4096, true, false⟩ : PState) with
            parsed := 0 + (single_line (eat_space (PState.buf ⟨[], 0, [108, 118, 108, 61, 66, 65, 68, 10, 111, 107, 61, 49, 10], 4096, true, false⟩))).length +
              (if (PState.buf ⟨[], 0, [108, 118, 108, 61, 66, 65, 68, 10, 111, 107, 61, 49, 10], 4096, true, false⟩).get?
                    (0 + (single_line (eat_space (PState.buf ⟨[], 0, [108, 118, 108, 61, 66, 65, 68, 10, 111, 107, 61, 49, 10], 4096, true, false⟩))).length) = some 10
               then 1 else 0) } ∧
    (PState.buf ⟨[], 0, [108, 118, 108, 61, 66, 65, 68, 10, 111, 107, 61, 49, 10], 4096, true, false⟩).drop
        (0 + (single_line (eat_space (PState.buf ⟨[], 0, [108, 118, 108, 61, 66, 65, 68, 10, 111, 107, 61, 49, 10], 4096, true, false⟩))).length) =
      (eat_space (PState.buf ⟨[], 0, [108, 118, 108, 61, 66, 65, 68, 10, 111, 107, 61, 49, 10], 4096, true, false⟩)).drop
        (single_line (eat_space (PState.buf ⟨[], 0, [108, 118, 108, 61, 66, 65, 68, 10, 111, 107, 61, 49, 10], 4096, true, false⟩))).length :=
  next_malformed_line 0 (initState [.chunk [108, 118, 108, 61, 66, 65, 68, 10, 111, 107, 61, 49, 10]])
    ⟨[], 0, [108, 118, 108, 61, 66, 65, 68, 10, 111, 107, 61, 49, 10], 4096, true, false⟩
    0 ⟨some [108, 118, 108, 61, 66, 65, 68], .InvalidLevel⟩
    (by decide) (by decide) (by decide)

/-! Claim C4: refill I/O errors. -/

/-- C4: when the refill read fails, one `next()` call emits exactly one
`ParseError` with `line = none` and an `Io` kind; the buffer keeps exactly
the unconsumed window (only the already-consumed prefix and its leading
spaces are dropped), `needs_read` stays set so the following call retries
the read, `hit_eof` is unchanged, and parsing will resume at the same byte
offset. -/
theorem next_io_error (fuel : Nat) (s : PState) (e : Nat) (r' : Reader)
    (hread : s.needsRead = true)
    (hr : s.reader = .ioErr e :: r') :
    nextF (fuel + 1) s =
      .yield (some (.error { line := none, kind := .IoError e }))
        { reader := r', parsed := 0, buf := eat_space (s.buf.drop s.parsed),
          cap := if (eat_space (s.buf.drop s.parsed)).length = s.cap then 2 * s.cap else s.cap,
          needsRead := true, hitEof := s.hitEof } := by
  have hbuf : s.buf.drop (s.parsed + countSpace (s.buf.drop s.parsed)) =
      eat_space (s.buf.drop s.parsed) := by
    rw [eat_space_eq_drop, List.drop_drop]
  simp only [nextF, hread, if_true, fill_buf, hr, readerRead, hbuf]

/-- Witness for C4: a one-shot `EAGAIN`-style error (code 11) arriving while
`_k` (one consumed byte, one space, one pending byte) sits in the buffer. -/
theorem next_io_error_witness :
    nextF (0 + 1) (⟨[.ioErr 11, .chunk [97]], 1, [97, 32, 107], 4096, true, false⟩ : PState) =
      .yield (some (.error { line := none, kind := .IoError 11 }))
        { reader := [.chunk [97]], parsed := 0,
          buf := eat_space (List.drop 1 [97, 32, 107]),
          cap := if (eat_space (List.drop 1 [97, 32, 107])).length = 4096 then 2 * 4096 else 4096,
          needsRead := true, hitEof := false } :=
  next_io_error 0 ⟨[.ioErr 11, .chunk [97]], 1, [97, 32, 107], 4096, true, false⟩ 11
    [.chunk [97]] rfl rfl

/-! Claim C3: refill-size dependence (code bug). -/

/-- C3 fails on the code: the input `a=b c=d\n` fed as the two chunks
`a=b ` and `c=d\n` yields two records (the read boundary right after the
space makes `parse_line` treat the exhausted window as a finished line),
while the same bytes fed at once yield the single record `{a: b, c: d}`. -/
theorem chunked_run_differs_from_single_read :
    collect 10 (initState [.chunk [97, 61, 98, 32], .chunk [99, 61, 100, 10]]) =
      [.ok { Record.empty with key_values := [([97], .string [98])] },
       .ok { Record.empty with key_values := [([99], .string [100])] }] ∧
    collect 10 (initState [.chunk [97, 61, 98, 32, 99, 61, 100, 10]]) =
      [.ok { Record.empty with key_values := [([97], .string [98]), ([99], .string [100])] }] ∧
    collect 10 (initState [.chunk [97, 61, 98, 32], .chunk [99, 61, 100, 10]]) ≠
      collect 10 (initState [.chunk [97, 61, 98, 32, 99, 61, 100, 10]]) := by
  decide

/-! Claim C5: panic freedom (code bug). -/

/-- C5 fails on the code: on the 4-byte input `"=a\n` the key scan trims the
key bytes to the single quote `"`, both `first()` and `last()` return that
quote, and the stripping slice `&key_bytes[1..0]` panics; the embedded
driver reaches the `panic` outcome instead of returning a record, an error,
or end-of-stream. -/
theorem next_panics_on_lone_quote_key :
    parse_key [34, 61, 97, 10] = .panic ∧
    nextF 2 (initState [.chunk [34, 61, 97, 10]]) = .panic := by
  decide

/-! Claim C6: timestamp interpretation. -/

/-- C6 counterexample: the value `1900-01-01T00:00:00.000000Z` is 27 bytes
with every separator in place and every subfield a valid integer, yet
interpretation does not succeed: `timegm` is negative, the `as u64` cast
wraps, and `SystemTime::UNIX_EPOCH + Duration` panics. -/
theorem parse_timestamp_1900_panics :
    tsLayout [49, 57, 48, 48, 45, 48, 49, 45, 48, 49, 84, 48, 48, 58, 48, 48, 58, 48, 48,
      46, 48, 48, 48, 48, 48, 48, 90] ∧
    (tsFields [49, 57, 48, 48, 45, 48, 49, 45, 48, 49, 84, 48, 48, 58, 48, 48, 58, 48, 48,
      46, 48, 48, 48, 48, 48, 48, 90]).isSome = true ∧
    parse_timestamp [49, 57, 48, 48, 45, 48, 49, 45, 48, 49, 84, 48, 48, 58, 48, 48, 58, 48,
      48, 46, 48, 48, 48, 48, 48, 48, 90] = .panic := by
  decide

/-! Claim C8: checked numeric conversions (the seconds cast wraps). -/

/-- C8 counterexample: for `1950-06-01T00:00:00.000000Z` the computed epoch
seconds are negative; the `as u64` cast reinterprets them as a value of at
least `2^63` (a huge unsigned number), after which the `SystemTime`
construction panics — the conversion is not checked and not mathematically
correct. -/
theorem parse_timestamp_1950_wraps :
    tsSecs [49, 57, 53, 48, 45, 48, 54, 45, 48, 49, 84, 48, 48, 58, 48, 48, 58, 48, 48,
      46, 48, 48, 48, 48, 48, 48, 90] < 0 ∧
    9223372036854775808 ≤ u64OfInt (tsSecs [49, 57, 53, 48, 45, 48, 54, 45, 48, 49, 84,
      48, 48, 58, 48, 48, 58, 48, 48, 46, 48, 48, 48, 48, 48, 48, 90]) ∧
    parse_timestamp [49, 57, 53, 48, 45, 48, 54, 45, 48, 49, 84, 48, 48, 58, 48, 48, 58,
      48, 48, 46, 48, 48, 48, 48, 48, 48, 90] = .panic := by
  decide

/-! Claim C9: writer/parser round trip (code bug). -/

/-- C9 fails on the code: serializing the record with timestamp
`2021-02-23T13:15:48` + 624447 microseconds, message `a\nb` (an embedded
newline), target `t` and module `m`, then parsing the emitted line back,
yields a record whose message is the four bytes `a\nb` (backslash + `n`:
the writer escaped the newline and the parser never unescapes) and whose
timestamp holds 624447 nanoseconds instead of 624447 microseconds (the
writer emits microsecond digits, the parser feeds them to `Duration::new`
as nanoseconds) — not field-for-field equal to the original. -/
theorem logfmt_round_trip_fails :
    collect 10 (initState [.chunk (serializeLogfmt 1614086148624447000 .Info [97, 10, 98] [116] [109])]) =
      [.ok { timestamp := some 1614086148000624447, level := .Info, msg := [97, 92, 110, 98],
             target := [116], module := some [109], file := none, key_values := [] }] ∧
    ({ timestamp := some 1614086148000624447, level := .Info, msg := [97, 92, 110, 98],
       target := [116], module := some [109], file := none, key_values := [] } : Record) ≠
    ({ timestamp := some 1614086148624447000, level := .Info, msg := [97, 10, 98],
       target := [116], module := some [109], file := none, key_values := [] } : Record) := by
  decide

/-! Claim C10: trailing fragment at end-of-file. -/

/-- C10 counterexample: for the input `a=1\nk\xFF` (no `=` in the trailing
fragment `k\xFF`), the call that reaches end-of-file with that fragment
pending does not return `None`: the fragment's key bytes are invalid UTF-8,
so `parse_key` fails and a `KeyInvalidUt8` `ParseError` is emitted. -/
theorem eof_fragment_yields_error :
    (61 : Nat) ∉ [107, 255] ∧
    collect 10 (initState [.chunk [97, 61, 49, 10, 107, 255]]) =
      [.ok { Record.empty with key_values := [([97], .int 1)] },
       .error ⟨some [107, 255], .KeyInvalidUt8⟩] := by
  decide

/-! Claim C7: level parsing is ASCII case-insensitive, not case-exact. -/

/-- C7 counterexample: the lower-case value `warn` parses successfully as
`Level::Warn`; contrary to the claim, it does not fail with
`InvalidLevel`. -/
theorem parse_log_level_warn_succeeds :
    parse_log_level [119, 97, 114, 110] = .ok .Warn ∧
    parse_log_level [119, 97, 114, 110] ≠ .error .InvalidLevel := by
  decide

/-- Spec-side lookup for the amended C7: the value matched ASCII
case-insensitively against the five level names. -/
def levelNameLookup (s : List Nat) : Option Level :=
  if eqIgnoreAsciiCase s [84, 82, 65, 67, 69] then some .Trace
  else if eqIgnoreAsciiCase s [68, 69, 66, 85, 71] then some .Debug
  else if eqIgnoreAsciiCase s [73, 78, 70, 79] then some .Info
  else if eqIgnoreAsciiCase s [87, 65, 82, 78] then some .Warn
  else if eqIgnoreAsciiCase s [69, 82, 82, 79, 82] then some .Error
  else none

/-- A case-insensitive match against one byte list refutes a match against
any byte list whose lower-casing differs. -/
theorem eqIC_unique (v a b : List Nat)
    (hab : (a.map asciiLower == b.map asciiLower) = false)
    (h : eqIgnoreAsciiCase v a = true) : eqIgnoreAsciiCase v b = false := by
  rw [eqIgnoreAsciiCase] at h ⊢
  rw [beq_iff_eq.mp h]
  exact hab

/-- Bytes matched case-insensitively against an ASCII byte list are ASCII. -/
theorem ascii_of_eqIC (v name : List Nat) (hname : ∀ b ∈ name, b < 128)
    (h : eqIgnoreAsciiCase v name = true) : ∀ b ∈ v, b < 128 := by
  intro b hb
  have hv : v.map asciiLower = name.map asciiLower := beq_iff_eq.mp h
  have hm : asciiLower b ∈ name.map asciiLower := by
    rw [← hv]; exact List.mem_map_of_mem asciiLower hb
  obtain ⟨c, hc, hcb⟩ := List.mem_map.mp hm
  have hc128 := hname c hc
  unfold asciiLower at hcb
  by_cases hbu : 65 ≤ b ∧ b ≤ 90
  · omega
  · split_ifs at hcb <;> omega

/-- ASCII byte lists pass the fuelled UTF-8 loop whenever the fuel exceeds
their length. -/
theorem utf8ValidF_of_ascii (fuel : Nat) :
    ∀ l : List Nat, l.length < fuel → (∀ b ∈ l, b < 128) → utf8ValidF fuel l = true := by
  induction fuel with
  | zero => intro l hl; omega
  | succ fuel ih =>
      intro l hl h
      cases l with
      | nil => rfl
      | cons b tl =>
          have hb : b < 128 := h b (by simp)
          rw [utf8ValidF, if_pos hb]
          exact ih tl (by simp at hl; omega) fun x hx => h x (by simp [hx])

/-- ASCII byte lists are valid UTF-8. -/
theorem utf8Valid_of_ascii (l : List Nat) (h : ∀ b ∈ l, b < 128) : utf8Valid l = true :=
  utf8ValidF_of_ascii (l.length + 1) l (by omega) h

/-- The code-side `levelFromStr` agrees with the spec-side name lookup. -/
theorem levelFromStr_eq_lookup (v : List Nat) : levelFromStr v = levelNameLookup v := by
  unfold levelFromStr levelNameLookup
  by_cases h0 : eqIgnoreAsciiCase v [79, 70, 70] = true
  · have e1 := eqIC_unique v _ [84, 82, 65, 67, 69] (by decide) h0
    have e2 := eqIC_unique v _ [68, 69, 66, 85, 71] (by decide) h0
    have e3 := eqIC_unique v _ [73, 78, 70, 79] (by decide) h0
    have e4 := eqIC_unique v _ [87, 65, 82, 78] (by decide) h0
    have e5 := eqIC_unique v _ [69, 82, 82, 79, 82] (by decide) h0
    simp [h0, e1, e2, e3, e4, e5]
  · simp only [Bool.not_eq_true] at h0
    by_cases hE : eqIgnoreAsciiCase v [69, 82, 82, 79, 82] = true
    · have e1 := eqIC_unique v _ [84, 82, 65, 67, 69] (by decide) hE
      have e2 := eqIC_unique v _ [68, 69, 66, 85, 71] (by decide) hE
      have e3 := eqIC_unique v _ [73, 78, 70, 79] (by decide) hE
      have e4 := eqIC_unique v _ [87, 65, 82, 78] (by decide) hE
      simp [h0, hE, e1, e2, e3, e4]
    · simp only [Bool.not_eq_true] at hE
      by_cases hW : eqIgnoreAsciiCase v [87, 65, 82, 78] = true
      · have e1 := eqIC_unique v _ [84, 82, 65, 67, 69] (by decide) hW
        have e2 := eqIC_unique v _ [68, 69, 66, 85, 71] (by decide) hW
        have e3 := eqIC_unique v _ [73, 78, 70, 79] (by decide) hW
        simp [h0, hE, hW, e1, e2, e3]
      · simp only [Bool.not_eq_true] at hW
        by_cases hI : eqIgnoreAsciiCase v [73, 78, 70, 79] = true
        · have e1 := eqIC_unique v _ [84, 82, 65, 67, 69] (by decide) hI
          have e2 := eqIC_unique v _ [68, 69, 66, 85, 71] (by decide) hI
          simp [h0, hE, hW, hI, e1, e2]
        · simp only [Bool.not_eq_true] at hI
          by_cases hD : eqIgnoreAsciiCase v [68, 69, 66, 85, 71] = true
          · have e1 := eqIC_unique v _ [84, 82, 65, 67, 69] (by decide) hD
            simp [h0, hE, hW, hI, hD, e1]
          · simp only [Bool.not_eq_true] at hD
            by_cases hT : eqIgnoreAsciiCase v [84, 82, 65, 67, 69] = true
            · simp [h0, hE, hW, hI, hD, hT]
            · simp only [Bool.not_eq_true] at hT
              simp [h0, hE, hW, hI, hD, hT]

/-- A successful name lookup forces the value to be ASCII, hence UTF-8. -/
theorem utf8Valid_of_lookup (v : List Nat) (l : Level)
    (h : levelNameLookup v = some l) : utf8Valid v = true := by
  unfold levelNameLookup at h
  split_ifs at h with h1 h2 h3 h4 h5
  · exact utf8Valid_of_ascii v (ascii_of_eqIC v _ (by decide) h1)
  · exact utf8Valid_of_ascii v (ascii_of_eqIC v _ (by decide) h2)
  · exact utf8Valid_of_ascii v (ascii_of_eqIC v _ (by decide) h3)
  · exact utf8Valid_of_ascii v (ascii_of_eqIC v _ (by decide) h4)
  · exact utf8Valid_of_ascii v (ascii_of_eqIC v _ (by decide) h5)

/-- Amended C7: interpreting key `lvl` succeeds exactly on values that match
one of the five level names ASCII case-insensitively (so also `warn`,
`TraCE`, ...), returning that level; every other value — including any
invalid UTF-8 — fails with `InvalidLevel`. -/
theorem parse_log_level_case_insensitive (v : List Nat) :
    parse_log_level v =
      match levelNameLookup v with
      | some l => .ok l
      | none => .error .InvalidLevel := by
  unfold parse_log_level
  rw [levelFromStr_eq_lookup]
  by_cases hu : utf8Valid v = true
  · rw [if_pos hu]
  · simp only [Bool.not_eq_true] at hu
    rw [if_neg (by simp [hu])]
    cases hL : levelNameLookup v with
    | none => rfl
    | some l => exact absurd (utf8Valid_of_lookup v l hL) (by simp [hu])

/-! Claims C6/C8: machinery for `parse_timestamp`. -/

/-- The success guard of the claims: correct length/separators and all seven
numeric subfields parse. -/
def tsGuard (v : List Nat) : Prop := tsLayout v ∧ (tsFields v).isSome = true

/-- Bytes of a successful digit run are ASCII digits. -/
theorem digitsVal_bytes (s : List Nat) (n : Nat) (h : digitsVal s = some n) :
    ∀ b ∈ s, 48 ≤ b ∧ b ≤ 57 := by
  induction s generalizing n with
  | nil => simp [digitsVal] at h
  | cons b tl ih =>
      cases tl with
      | nil =>
          intro x hx
          simp only [List.mem_singleton] at hx
          subst hx
          by_cases hd : 48 ≤ x ∧ x ≤ 57
          · exact hd
          · rw [digitsVal, if_neg hd] at h; exact absurd h (by simp)
      | cons c tl2 =>
          intro x hx
          simp only [digitsVal] at h
          by_cases hd : 48 ≤ b ∧ b ≤ 57
          · rw [if_pos hd] at h
            rcases List.mem_cons.mp hx with hxb | hxtl
            · exact hxb ▸ hd
            · cases hm : digitsVal (c :: tl2) with
              | none => rw [hm] at h; exact absurd h (by simp)
              | some m => exact ih m hm x hxtl
          · rw [if_neg hd] at h; exact absurd h (by simp)

/-- Bytes of a value accepted by the `i32` parse are ASCII. -/
theorem parseI32_bytes (s : List Nat) (n : Int) (h : parseI32 s = some n) :
    ∀ b ∈ s, b < 128 := by
  intro b hb
  unfold parseI32 at h
  split at h
  next rest =>
      cases hd : digitsVal rest with
      | none => rw [hd] at h; simp at h
      | some m =>
          rcases List.mem_cons.mp hb with hb43 | hbr
          · omega
          · have := digitsVal_bytes rest m hd b hbr; omega
  next rest =>
      cases hd : digitsVal rest with
      | none => rw [hd] at h; simp at h
      | some m =>
          rcases List.mem_cons.mp hb with hb45 | hbr
          · omega
          · have := digitsVal_bytes rest m hd b hbr; omega
  next =>
      cases hd : digitsVal s with
      | none => rw [hd] at h; simp at h
      | some m => have := digitsVal_bytes s m hd b hb; omega

/-- Bytes of a value accepted by the `u32` parse are ASCII. -/
theorem parseU32_bytes (s : List Nat) (n : Nat) (h : parseU32 s = some n) :
    ∀ b ∈ s, b < 128 := by
  intro b hb
  unfold parseU32 at h
  split at h
  next rest =>
      cases hd : digitsVal rest with
      | none => rw [hd] at h; simp at h
      | some m =>
          rcases List.mem_cons.mp hb with hb43 | hbr
          · omega
          · have := digitsVal_bytes rest m hd b hbr; omega
  next =>
      cases hd : digitsVal s with
      | none => rw [hd] at h; simp at h
      | some m => have := digitsVal_bytes s m hd b hb; omega

/-- Membership of an indexed byte in a `(drop, take)` subfield slice. -/
theorem mem_take_drop (v : List Nat) (a k i b : Nat)
    (h1 : a ≤ i) (h2 : i - a < k) (h : v.get? i = some b) :
    b ∈ (v.drop a).take k := by
  apply List.get?_mem (n := i - a)
  rw [List.get?_take h2, List.get?_drop, show a + (i - a) = i by omega]
  exact h

/-- Decidability of the success guard. -/
instance (v : List Nat) : Decidable (tsGuard v) := by
  unfold tsGuard; infer_instance

/-- Unpacking a successful `tsFields`: each subfield parse succeeded. -/
theorem tsFields_extract (v : List Nat) (h : (tsFields v).isSome = true) :
    ∃ y mo d hh mi se f,
      parseI32 ((v.drop 0).take 4) = some y ∧ parseI32 ((v.drop 5).take 2) = some mo ∧
      parseI32 ((v.drop 8).take 2) = some d ∧ parseI32 ((v.drop 11).take 2) = some hh ∧
      parseI32 ((v.drop 14).take 2) = some mi ∧ parseI32 ((v.drop 17).take 2) = some se ∧
      parseU32 ((v.drop 20).take 6) = some f ∧
      tsFields v = some (y, mo, d, hh, mi, se, f) := by
  unfold tsFields at h
  cases h1 : parseI32 ((v.drop 0).take 4) with
  | none => rw [h1] at h; simp at h
  | some y =>
    rw [h1] at h
    simp only [Option.bind_eq_bind, Option.some_bind] at h
    cases h2 : parseI32 ((v.drop 5).take 2) with
    | none => rw [h2] at h; simp at h
    | some mo =>
      rw [h2] at h
      simp only [Option.bind_eq_bind, Option.some_bind] at h
      cases h3 : parseI32 ((v.drop 8).take 2) with
      | none => rw [h3] at h; simp at h
      | some d =>
        rw [h3] at h
        simp only [Option.bind_eq_bind, Option.some_bind] at h
        cases h4 : parseI32 ((v.drop 11).take 2) with
        | none => rw [h4] at h; simp at h
        | some hh =>
          rw [h4] at h
          simp only [Option.bind_eq_bind, Option.some_bind] at h
          cases h5 : parseI32 ((v.drop 14).take 2) with
          | none => rw [h5] at h; simp at h
          | some mi =>
            rw [h5] at h
            simp only [Option.bind_eq_bind, Option.some_bind] at h
            cases h6 : parseI32 ((v.drop 17).take 2) with
            | none => rw [h6] at h; simp at h
            | some se =>
              rw [h6] at h
              simp only [Option.bind_eq_bind, Option.some_bind] at h
              cases h7 : parseU32 ((v.drop 20).take 6) with
              | none => rw [h7] at h; simp at h
              | some f =>
                rw [h7] at h
                simp only [Option.bind_eq_bind, Option.some_bind] at h
                refine ⟨y, mo, d, hh, mi, se, f, rfl, rfl, rfl, rfl, rfl, rfl, rfl, ?_⟩
                have h1x : parseI32 (v.take 4) = some y := by simpa using h1
                simp [tsFields, h1x, h2, h3, h4, h5, h6, h7]

/-- Every byte of a guard-passing timestamp value is ASCII: it is either one
of the fixed separators or part of a subfield that parsed as an integer. -/
theorem tsGuard_ascii (v : List Nat) (h : tsGuard v) : ∀ b ∈ v, b < 128 := by
  obtain ⟨hL, hS⟩ := h
  obtain ⟨y, mo, d, hh, mi, se, f, h1, h2, h3, h4, h5, h6, h7, hfeq⟩ := tsFields_extract v hS
  obtain ⟨hlen, s4, s7, s10, s13, s16, s19, s26⟩ := hL
  intro b hb
  obtain ⟨i, hi⟩ := List.mem_iff_get?.mp hb
  have hi27 : i < 27 := by
    by_contra hc
    push_neg at hc
    rw [List.get?_eq_none.mpr (by omega)] at hi
    exact absurd hi (by simp)
  have hsplit : i ≤ 3 ∨ i = 4 ∨ (5 ≤ i ∧ i ≤ 6) ∨ i = 7 ∨ (8 ≤ i ∧ i ≤ 9) ∨ i = 10 ∨
      (11 ≤ i ∧ i ≤ 12) ∨ i = 13 ∨ (14 ≤ i ∧ i ≤ 15) ∨ i = 16 ∨ (17 ≤ i ∧ i ≤ 18) ∨
      i = 19 ∨ (20 ≤ i ∧ i ≤ 25) ∨ i = 26 := by omega
  rcases hsplit with hr | hr | hr | hr | hr | hr | hr | hr | hr | hr | hr | hr | hr | hr
  · exact parseI32_bytes _ _ h1 b (mem_take_drop v 0 4 i b (by omega) (by omega) hi)
  · subst hr; rw [s4] at hi; simp only [Option.some.injEq] at hi; omega
  · exact parseI32_bytes _ _ h2 b (mem_take_drop v 5 2 i b (by omega) (by omega) hi)
  · subst hr; rw [s7] at hi; simp only [Option.some.injEq] at hi; omega
  · exact parseI32_bytes _ _ h3 b (mem_take_drop v 8 2 i b (by omega) (by omega) hi)
  · subst hr; rw [s10] at hi; simp only [Option.some.injEq] at hi; omega
  · exact parseI32_bytes _ _ h4 b (mem_take_drop v 11 2 i b (by omega) (by omega) hi)
  · subst hr; rw [s13] at hi; simp only [Option.some.injEq] at hi; omega
  · exact parseI32_bytes _ _ h5 b (mem_take_drop v 14 2 i b (by omega) (by omega) hi)
  · subst hr; rw [s16] at hi; simp only [Option.some.injEq] at hi; omega
  · exact parseI32_bytes _ _ h6 b (mem_take_drop v 17 2 i b (by omega) (by omega) hi)
  · subst hr; rw [s19] at hi; simp only [Option.some.injEq] at hi; omega
  · exact parseU32_bytes _ _ h7 b (mem_take_drop v 20 6 i b (by omega) (by omega) hi)
  · subst hr; rw [s26] at hi; simp only [Option.some.injEq] at hi; omega

/-- Under the guard, `parse_timestamp` reaches the conversion: it returns
the cast-and-scaled epoch value, or panics when the cast seconds overflow
the `SystemTime` range. -/
theorem parse_timestamp_guard (v : List Nat) (h : tsGuard v) :
    parse_timestamp v =
      if u64OfInt (tsSecs v) < 9223372036854775808 then
        .ok (.ok (u64OfInt (tsSecs v) * 1000000000 + tsFrac v))
      else .panic := by
  obtain ⟨y, mo, d, hh, mi, se, f, h1, h2, h3, h4, h5, h6, h7, hfeq⟩ :=
    tsFields_extract v h.2
  unfold parse_timestamp tsSecs tsFrac
  rw [if_pos h.1, if_pos (utf8Valid_of_ascii v (tsGuard_ascii v h)), hfeq]

/-- Outside the guard, `parse_timestamp` returns `InvalidTimestamp`. -/
theorem parse_timestamp_err (v : List Nat) (h : ¬ tsGuard v) :
    parse_timestamp v = .ok (.error .InvalidTimestamp) := by
  unfold parse_timestamp
  by_cases hL : tsLayout v
  · rw [if_pos hL]
    have hf : tsFields v = none := by
      cases hf' : tsFields v with
      | none => rfl
      | some x => exact absurd ⟨hL, by rw [hf']; rfl⟩ h
    rw [hf]
    split <;> rfl
  · rw [if_neg hL]

/-- The `as u64` cast is the identity on non-negative in-range values. -/
theorem u64OfInt_nonneg (t : Int) (h1 : 0 ≤ t) (h2 : t < 18446744073709551616) :
    u64OfInt t = t.toNat := by
  unfold u64OfInt
  rw [Int.emod_eq_of_lt h1 h2]

/-- The `as u64` cast wraps every negative `i64` value to at least `2^63`. -/
theorem u64OfInt_neg (t : Int) (h1 : -9223372036854775808 ≤ t) (h2 : t < 0) :
    9223372036854775808 ≤ u64OfInt t := by
  unfold u64OfInt
  have key : t % 18446744073709551616 = t + 18446744073709551616 := by
    have h3 : (0 : Int) ≤ t + 18446744073709551616 := by omega
    have h4 : t + 18446744073709551616 < 18446744073709551616 := by omega
    calc t % 18446744073709551616
        = (t + 18446744073709551616) % 18446744073709551616 := (Int.add_emod_self).symm
      _ = t + 18446744073709551616 := Int.emod_eq_of_lt h3 h4
  rw [key]
  omega

/-- Case split on the sign of the epoch seconds for a guard-passing value:
exact conversion for non-negative in-range seconds, wrap-then-panic for
negative seconds. -/
theorem parse_timestamp_cast_cases (v : List Nat) (h : tsGuard v) :
    (0 ≤ tsSecs v → tsSecs v < 9223372036854775808 →
      parse_timestamp v = .ok (.ok ((tsSecs v).toNat * 1000000000 + tsFrac v))) ∧
    (-9223372036854775808 ≤ tsSecs v → tsSecs v < 0 →
      9223372036854775808 ≤ u64OfInt (tsSecs v) ∧ parse_timestamp v = .panic) := by
  constructor
  · intro h1 h2
    rw [parse_timestamp_guard v h, u64OfInt_nonneg _ h1 (by omega)]
    rw [if_pos (by omega)]
  · intro h1 h2
    have hw := u64OfInt_neg _ h1 h2
    refine ⟨hw, ?_⟩
    rw [parse_timestamp_guard v h, if_neg (by omega)]

/-- Amended C8: every subfield conversion is exact; the one unchecked
conversion is the final `i64`-to-`u64` cast of the `timegm` epoch seconds.
For check-passing values with non-negative (in-range) epoch seconds the
result is the mathematically correct `secs * 10^9 + fraction`; for negative
epoch seconds the cast wraps to at least `2^63` and the `SystemTime`
construction panics. -/
theorem parse_timestamp_seconds_cast (v : List Nat) (h : tsGuard v) :
    (0 ≤ tsSecs v → tsSecs v < 9223372036854775808 →
      parse_timestamp v = .ok (.ok ((tsSecs v).toNat * 1000000000 + tsFrac v))) ∧
    (-9223372036854775808 ≤ tsSecs v → tsSecs v < 0 →
      9223372036854775808 ≤ u64OfInt (tsSecs v) ∧ parse_timestamp v = .panic) :=
  parse_timestamp_cast_cases v h

/-- Witness for the amended C8 at `2021-02-23T13:15:48.624447Z`. -/
theorem parse_timestamp_seconds_cast_witness :
    0 ≤ tsSecs [50, 48, 50, 49, 45, 48, 50, 45, 50, 51, 84, 49, 51, 58, 49, 53, 58, 52, 56,
      46, 54, 50, 52, 52, 52, 55, 90] ∧
    parse_timestamp [50, 48, 50, 49, 45, 48, 50, 45, 50, 51, 84, 49, 51, 58, 49, 53, 58, 52,
      56, 46, 54, 50, 52, 52, 52, 55, 90] =
      .ok (.ok ((tsSecs [50, 48, 50, 49, 45, 48, 50, 45, 50, 51, 84, 49, 51, 58, 49, 53, 58,
        52, 56, 46, 54, 50, 52, 52, 52, 55, 90]).toNat * 1000000000 +
        tsFrac [50, 48, 50, 49, 45, 48, 50, 45, 50, 51, 84, 49, 51, 58, 49, 53, 58, 52, 56,
          46, 54, 50, 52, 52, 52, 55, 90])) :=
  ⟨by decide,
   (parse_timestamp_seconds_cast _ (by decide)).1 (by decide) (by decide)⟩

/-- `fill_buf` at an exhausted reader: a 0-byte read, which sets `hit_eof`
and leaves the compacted buffer unchanged. -/
theorem fill_buf_eof (s : PState) (hr : s.reader = []) :
    fill_buf s =
      ({ reader := [], parsed := 0, buf := eat_space (s.buf.drop s.parsed),
         cap := if (eat_space (s.buf.drop s.parsed)).length = s.cap then 2 * s.cap else s.cap,
         needsRead := s.needsRead, hitEof := true }, none) := by
  have hbuf : s.buf.drop (s.parsed + countSpace (s.buf.drop s.parsed)) =
      eat_space (s.buf.drop s.parsed) := by
    rw [eat_space_eq_drop, List.drop_drop]
  simp only [fill_buf, hr, readerRead, hbuf, List.append_nil, List.length_nil, if_true]

/-- `parse_key` on a window starting `ts=`: key `ts`, rest after the `=`. -/
theorem parse_key_ts (T : List Nat) :
    parse_key (116 :: 115 :: 61 :: T) = .ok (.ok (T, [116, 115])) := by
  have h1 : countUntilEq (116 :: 115 :: 61 :: T) = 2 := by
    unfold countUntilEq
    simp [List.takeWhile_cons]
  unfold parse_key
  rw [h1]
  simp [List.take, List.drop, eat_space_both, eat_space, eat_space_end, isSpaceTab,
    List.dropWhile, (show utf8Valid [116, 115] = true by decide)]

/-- `parse_value` on a naked value followed by a newline. -/
theorem parse_value_naked (v rest : List Nat) (hv1 : v ≠ [])
    (hv2 : ∀ b ∈ v, b ≠ 32 ∧ b ≠ 9 ∧ b ≠ 10 ∧ b ≠ 34) :
    parse_value (v ++ 10 :: rest) = (10 :: rest, v) := by
  obtain ⟨b, v', rfl⟩ := List.exists_cons_of_ne_nil hv1
  have hb := hv2 b (by simp)
  unfold parse_value
  have hes : eat_space ((b :: v') ++ 10 :: rest) = (b :: v') ++ 10 :: rest := by
    rw [List.cons_append]
    exact eat_space_cons_of_not _ _ (by simp [isSpaceTab, hb.1, hb.2.1])
  rw [hes]
  have hh : (((b :: v') ++ 10 :: rest).head? = some 34) = False := by
    simp
    intro hc
    exact absurd hc hb.2.2.2
  rw [if_neg (by rw [hh]; exact id)]
  unfold parse_naked_value
  have htw : ((b :: v') ++ 10 :: rest).takeWhile (fun x => decide (x ≠ 32 ∧ x ≠ 10)) =
      b :: v' := by
    rw [takeWhile_append_all _ (b :: v') (10 :: rest)
      (fun x hx => by
        have := hv2 x hx
        simp [this.1, this.2.2.1])]
    simp [List.takeWhile_cons]
  rw [htw]
  simp only []
  rw [List.drop_left, List.take_left]

/-- The quote-parity line scan on a `ts=<plain value>\n<rest>` window. -/
theorem single_line_ts (v rest : List Nat) (h34 : 34 ∉ v) (h10 : 10 ∉ v) :
    single_line (116 :: 115 :: 61 :: (v ++ 10 :: rest)) = 116 :: 115 :: 61 :: v := by
  unfold single_line
  rw [show singleLineAux (116 :: 115 :: 61 :: (v ++ 10 :: rest)) 0 =
      116 :: 115 :: 61 :: singleLineAux (v ++ 10 :: rest) 0 by simp [singleLineAux]]
  rw [singleLineAux_append v (10 :: rest) 0 h34 h10]
  simp [singleLineAux]

/-- The `parse_line` loop on a window `ts=<plain value>\n<rest>` whose value
fails the timestamp guard: one pair is scanned, interpretation fails, and
the error captures the line `ts=<value>`. -/
theorem lineLoop_ts (fuel total base : Nat) (eofFlag : Bool) (v rest : List Nat)
    (hv1 : v ≠ []) (hv2 : ∀ b ∈ v, b ≠ 32 ∧ b ≠ 9 ∧ b ≠ 10 ∧ b ≠ 34)
    (hg : ¬ tsGuard v) :
    lineLoop (fuel + 1) eofFlag total (116 :: 115 :: 61 :: (v ++ 10 :: rest)) base
      (116 :: 115 :: 61 :: (v ++ 10 :: rest)) Record.empty true =
      .ok (base, .error ⟨some (116 :: 115 :: 61 :: v), .InvalidTimestamp⟩) := by
  have h34 : 34 ∉ v := fun hc => (hv2 34 hc).2.2.2 rfl
  have h10 : 10 ∉ v := fun hc => (hv2 10 hc).2.2.1 rfl
  have heat : eat_space (116 :: 115 :: 61 :: (v ++ 10 :: rest)) =
      116 :: 115 :: 61 :: (v ++ 10 :: rest) :=
    eat_space_cons_of_not _ _ (by decide)
  have hkey := parse_key_ts (v ++ 10 :: rest)
  have hval := parse_value_naked v rest hv1 hv2
  have hint : interpret [116, 115] v Record.empty = .ok (.error .InvalidTimestamp) := by
    unfold interpret
    simp only [show ([116, 115] = tsKeyName) = True by simp [tsKeyName], if_true,
      parse_timestamp_err v hg]
  have hsl := single_line_ts v rest h34 h10
  simp only [lineLoop, heat, hkey, hval, hint, hsl]
  simp

/-- Amended C6: interpreting key `ts` yields `InvalidTimestamp` exactly on
guard violations (wrong length, wrong separator positions, or a non-numeric
subfield); when the guard holds and the epoch seconds are in `i64` range,
interpretation succeeds if and only if the epoch seconds are non-negative
(check-passing pre-epoch values panic instead of succeeding); and for a
failing `ts` line the driver emits one `InvalidTimestamp` error whose line
is the raw `ts=<value>` text and resumes at the following line. -/
theorem parse_timestamp_validation :
    (∀ v, ¬ tsGuard v → parse_timestamp v = .ok (.error .InvalidTimestamp)) ∧
    (∀ v, tsGuard v → -9223372036854775808 ≤ tsSecs v → tsSecs v < 9223372036854775808 →
      ((∃ t, parse_timestamp v = .ok (.ok t)) ↔ 0 ≤ tsSecs v)) ∧
    (∀ (fuel cap : Nat) (e0 : Bool) (v rest : List Nat), v ≠ [] →
      (∀ b ∈ v, b ≠ 32 ∧ b ≠ 9 ∧ b ≠ 10 ∧ b ≠ 34) → ¬ tsGuard v →
      nextF (fuel + 1) ⟨[], 0, 116 :: 115 :: 61 :: (v ++ 10 :: rest), cap, true, e0⟩ =
        .yield (some (.error ⟨some (116 :: 115 :: 61 :: v), .InvalidTimestamp⟩))
          ⟨[], 4 + v.length, 116 :: 115 :: 61 :: (v ++ 10 :: rest),
           if (116 :: 115 :: 61 :: (v ++ 10 :: rest)).length = cap then 2 * cap else cap,
           true, true⟩ ∧
      (116 :: 115 :: 61 :: (v ++ 10 :: rest)).drop (4 + v.length) = rest) := by
  refine ⟨parse_timestamp_err, ?_, ?_⟩
  · intro v hg h1 h2
    constructor
    · rintro ⟨t, ht⟩
      by_contra hneg
      push_neg at hneg
      have := ((parse_timestamp_cast_cases v hg).2 h1 hneg).2
      rw [this] at ht
      exact absurd ht (by simp)
    · intro h0
      exact ⟨_, (parse_timestamp_cast_cases v hg).1 h0 h2⟩
  · intro fuel cap e0 v rest hv1 hv2 hg
    have heat : eat_space (116 :: 115 :: 61 :: (v ++ 10 :: rest)) =
        116 :: 115 :: 61 :: (v ++ 10 :: rest) :=
      eat_space_cons_of_not _ _ (by decide)
    have hcs : countSpace (116 :: 115 :: 61 :: (v ++ 10 :: rest)) = 0 :=
      countSpace_cons_of_not _ _ (by decide)
    have hfb := fill_buf_eof ⟨[], 0, 116 :: 115 :: 61 :: (v ++ 10 :: rest), cap, true, e0⟩ rfl
    simp only [List.drop_zero, heat] at hfb
    have hpl : parse_line
        ⟨[], 0, 116 :: 115 :: 61 :: (v ++ 10 :: rest),
         if (116 :: 115 :: 61 :: (v ++ 10 :: rest)).length = cap then 2 * cap else cap,
         true, true⟩ =
        .ok (0, .error ⟨some (116 :: 115 :: 61 :: v), .InvalidTimestamp⟩) := by
      unfold parse_line
      simp only [List.drop_zero, hcs, Nat.zero_add, Nat.add_zero]
      exact lineLoop_ts _ _ _ _ v rest hv1 hv2 hg
    have hget : (116 :: 115 :: 61 :: (v ++ 10 :: rest)).get? (0 + (116 :: 115 :: 61 :: v).length) =
        some 10 := by
      simp only [List.length_cons, Nat.zero_add]
      rw [show v.length + 1 + 1 + 1 = (v.length + 2) + 1 by omega, List.get?_cons_succ,
          show v.length + 2 = (v.length + 1) + 1 by omega, List.get?_cons_succ,
          List.get?_cons_succ, List.get?_append_right (le_refl _)]
      simp
    have hdrop : (116 :: 115 :: 61 :: (v ++ 10 :: rest)).drop (4 + v.length) = rest := by
      rw [show 4 + v.length = (3 + v.length) + 1 by omega, List.drop_succ_cons,
          show 3 + v.length = (2 + v.length) + 1 by omega, List.drop_succ_cons,
          show 2 + v.length = (1 + v.length) + 1 by omega, List.drop_succ_cons,
          show v ++ 10 :: rest = (v ++ [10]) ++ rest by simp,
          show 1 + v.length = ((v ++ [10]) : List Nat).length by simp [Nat.add_comm]]
      exact List.drop_left _ _
    refine ⟨?_, hdrop⟩
    simp only [nextF]
    rw [hfb]
    simp only [if_true, hpl, hget, reduceIte]
    have harith : 0 + (116 :: 115 :: 61 :: v).length + 1 = 4 + v.length := by
      simp only [List.length_cons]
      omega
    rw [harith]

/-- Quote-stripping of a trimmed key, the total part of the corresponding
step in `parse_key` (the stripping there panics on the lone quote `"`; this
helper is only ever applied away from that case). -/
def stripKeyQuotes (kb : List Nat) : List Nat :=
  if kb.head? = some 34 ∧ kb.getLast? = some 34 then eat_space_both ((kb.drop 1).dropLast)
  else kb

/-- `takeWhile` keeps a list all of whose elements satisfy the predicate. -/
theorem takeWhile_all (p : Nat → Bool) (l : List Nat) (h : ∀ b ∈ l, p b = true) :
    l.takeWhile p = l := by
  have := takeWhile_append_all p l [] h
  simpa using this

/-- `parse_key` on a window with no `=`: the whole window becomes the key;
trimmed and quote-stripped it must be valid UTF-8 (and not a lone `"`, the
panicking case); the remaining input is empty. -/
theorem parse_key_no_eq (w : List Nat) (hw : 61 ∉ w)
    (h1 : eat_space_both w ≠ [34])
    (h2 : utf8Valid (stripKeyQuotes (eat_space_both w)) = true) :
    parse_key w = .ok (.ok ([], stripKeyQuotes (eat_space_both w))) := by
  have hcnt : countUntilEq w = w.length := by
    unfold countUntilEq
    rw [takeWhile_all _ w (fun b hb => by
      simp only [decide_eq_true_eq]
      intro hc; exact hw (hc ▸ hb))]
  simp only [parse_key]
  rw [hcnt, List.take_length, List.drop_length]
  simp only [reduceIte]
  by_cases hq : (eat_space_both w).head? = some 34 ∧ (eat_space_both w).getLast? = some 34
  · rw [if_pos hq]
    have hlen : ¬ (eat_space_both w).length < 2 := by
      intro hl
      rcases hx : eat_space_both w with _ | ⟨a, _ | ⟨b, tl⟩⟩
      · rw [hx] at hq; simp at hq
      · rw [hx] at hq
        simp only [List.head?_cons, Option.some.injEq, List.getLast?_singleton] at hq
        exact h1 (by rw [hx, hq.1])
      · rw [hx] at hl; simp at hl; omega
    rw [if_neg hlen]
    have hs : stripKeyQuotes (eat_space_both w) =
        eat_space_both (((eat_space_both w).drop 1).dropLast) := by
      unfold stripKeyQuotes
      rw [if_pos hq]
    rw [hs] at h2
    rw [if_pos h2, hs]
  · rw [if_neg hq]
    have hs : stripKeyQuotes (eat_space_both w) = eat_space_both w := by
      unfold stripKeyQuotes
      rw [if_neg hq]
    rw [hs] at h2
    rw [if_pos h2, hs]

/-- The `parse_line` loop on an already-space-eaten blank window (empty or
starting with a newline): the record is empty, so no record is produced. -/
theorem lineLoop_blank (fuel total base : Nat) (eofFlag : Bool) (w : List Nat)
    (hw : eat_space w = w) (hA : w = [] ∨ w.head? = some 10) :
    lineLoop (fuel + 1) eofFlag total w base w Record.empty true =
      .ok (total - w.length + (if w = [] then 0 else 1), .ok none) := by
  simp only [lineLoop, hw]
  rw [if_pos hA]
  simp only [if_true]

/-- The `parse_line` loop on an already-space-eaten window whose key scan
consumes everything (no `=` present): incomplete, no record. -/
theorem lineLoop_incomplete_key (fuel total base : Nat) (eofFlag : Bool) (w k : List Nat)
    (hw : eat_space w = w) (hA : ¬(w = [] ∨ w.head? = some 10))
    (hkey : parse_key w = .ok (.ok ([], k))) :
    lineLoop (fuel + 1) eofFlag total w base w Record.empty true = .ok (base, .ok none) := by
  simp only [lineLoop, hw, hkey]
  rw [if_neg hA]
  simp only [reduceIte]

/-- Amended C10: when end-of-file has been reached and the pending fragment
contains no `=`, `next()` returns `None` — the fragment is silently
discarded with neither record nor error — provided the fragment's key bytes
(trimmed and quote-stripped) are valid UTF-8 and the trimmed key is not the
lone quote `"`; an invalid-UTF-8 key yields a `KeyInvalidUt8` error instead
and the lone quote panics. -/
theorem next_eof_no_eq_fragment (fuel : Nat) (s : PState)
    (hread : s.needsRead = true) (hr : s.reader = [])
    (hw61 : 61 ∉ eat_space (s.buf.drop s.parsed))
    (hkq : eat_space_both (eat_space (s.buf.drop s.parsed)) ≠ [34])
    (hutf : utf8Valid (stripKeyQuotes (eat_space_both (eat_space (s.buf.drop s.parsed)))) = true) :
    ∃ s', nextF (fuel + 1) s = .yield none s' := by
  have hfb := fill_buf_eof s hr
  rw [hread] at hfb
  have hidem : eat_space (eat_space (s.buf.drop s.parsed)) = eat_space (s.buf.drop s.parsed) :=
    eat_space_idem _
  have hcs : countSpace (eat_space (s.buf.drop s.parsed)) = 0 := countSpace_eat_space _
  have hpl : ∃ p, parse_line
      { reader := [], parsed := 0, buf := eat_space (s.buf.drop s.parsed),
        cap := if (eat_space (s.buf.drop s.parsed)).length = s.cap then 2 * s.cap else s.cap,
        needsRead := true, hitEof := true } =
      .ok (p, .ok none) := by
    by_cases hA : eat_space (s.buf.drop s.parsed) = [] ∨
        (eat_space (s.buf.drop s.parsed)).head? = some 10
    · exact ⟨_, by
        simp only [parse_line, List.drop_zero, hcs, Nat.zero_add]
        exact lineLoop_blank _ _ _ _ _ hidem hA⟩
    · have hkey := parse_key_no_eq (eat_space (s.buf.drop s.parsed)) hw61 hkq hutf
      exact ⟨_, by
        simp only [parse_line, List.drop_zero, hcs, Nat.zero_add]
        exact lineLoop_incomplete_key _ _ _ _ _ _ hidem hA hkey⟩
  obtain ⟨p, hpl⟩ := hpl
  exact ⟨_, by
    simp only [nextF, hread, if_true]
    rw [hfb]
    simp only [hpl, reduceIte]
    rfl⟩

/-- Witness for the amended C6 at the failing line `ts=BAD\nx` (value `BAD`
fails the guard). -/
theorem parse_timestamp_validation_witness :
    nextF (0 + 1) ⟨[], 0, 116 :: 115 :: 61 :: ([66, 65, 68] ++ 10 :: [120]), 4096, true, false⟩ =
      .yield (some (.error ⟨some (116 :: 115 :: 61 :: [66, 65, 68]), .InvalidTimestamp⟩))
        ⟨[], 4 + [66, 65, 68].length, 116 :: 115 :: 61 :: ([66, 65, 68] ++ 10 :: [120]),
         if (116 :: 115 :: 61 :: ([66, 65, 68] ++ 10 :: [120])).length = 4096 then 2 * 4096
         else 4096,
         true, true⟩ ∧
    (116 :: 115 :: 61 :: ([66, 65, 68] ++ 10 :: [120])).drop (4 + [66, 65, 68].length) = [120] :=
  parse_timestamp_validation.2.2 0 4096 false [66, 65, 68] [120] (by decide) (by decide)
    (by decide)

/-- Witness for the amended C10: fragment `key` pending at end-of-file. -/
theorem next_eof_no_eq_fragment_witness :
    ∃ s', nextF (0 + 1) (⟨[], 0, [107, 101, 121], 4096, true, true⟩ : PState) =
      .yield none s' :=
  next_eof_no_eq_fragment 0 ⟨[], 0, [107, 101, 121], 4096, true, true⟩ rfl rfl
    (by decide) (by decide) (by decide)
